import Mathlib

/-!
Shallow embedding of the incremental persistence and diff engine of the
`sydes` repository (`src/sydes/store/sqlite_store.py`), together with
theorems settling the specification claims about it.

Modelling conventions:
* The SQLite database is modelled as an in-memory `Store` value holding the
  four tables (`files`, `routes`, `scans`, `scan_endpoints`) as lists of rows;
  each store method becomes a pure function on `Store` (state passing).
* `INSERT OR REPLACE` on a primary-key table is modelled by removing the rows
  that share the new row's key and appending the new row.
* SHA-1 / SHA-256 digests are abstracted by injective encodings of the hashed
  data (the pre-image string for SHA-1 route/endpoint ids, a deterministic
  fold for SHA-256): every claim verified here depends only on *which* data
  is hashed, never on the digest's bit pattern, and the abstraction keeps the
  collision-freedom that the code assumes of the real hash.
* Wall-clock reads (`_now_ts`) become an explicit `ts` argument.
* `ORDER BY method, http_path, rel_path, decl_line` is modelled by a stable
  insertion sort on that lexicographic key (SQLite leaves the relative order
  of key-equal rows unspecified; the model fixes one such order, and no claim
  below depends on the order among key-equal rows).
* Python's `sorted` on endpoint-id strings is modelled by sorting the
  (abstracted) id strings; "sorted by endpoint identity" is preserved.
-/

/-- The digest `_sha256_bytes(data)`: SHA-256 is abstracted as a deterministic digest of
the byte string.  The claims about fingerprinting depend only on which bytes
are hashed. -/
def _sha256_bytes (data : List Nat) : String :=
  toString (data.foldl (fun acc b => (acc * 257 + b % 256 + 1) % (2 ^ 256)) 0)

/-- Python `str.upper()` restricted to ASCII (every string the code uppercases
is an HTTP method name or an ASCII pattern).  `String.toUpper` itself is
avoided only because its byte-position recursion does not reduce in the
kernel; this is the same function on ASCII data. -/
def pyUpper (s : String) : String :=
  String.mk (s.data.map Char.toUpper)

/-- The endpoint identity `_endpoint_id(method, http_path)`: SHA-1 of `f"{method.upper()}|{http_path}"`,
abstracted as the (injective) pre-image string itself. -/
def _endpoint_id (method : String) (http_path : String) : String :=
  pyUpper method ++ "|" ++ http_path

/-- The `RouteDecl`-shaped input records consumed by
`replace_routes_for_file` (fields as required by its docstring). -/
structure RouteDecl where
  method : String
  path : String
  handler_name : String
  start_line : Int
  end_line : Int
  decorator_line : Int
deriving DecidableEq

/-- A row of the `routes` table (primary key `id`). -/
structure RouteRow where
  id : String
  rel_path : String
  method : String
  http_path : String
  handler_name : String
  start_line : Int
  end_line : Int
  decl_line : Int
  source : String
  updated_at : Int
deriving DecidableEq

/-- A row of the `files` table (primary key `rel_path`). -/
structure FileRow where
  rel_path : String
  sha256 : String
  mtime_ns : Int
  size_bytes : Int
  last_scanned_at : Int
deriving DecidableEq

/-- A row of the `scans` table (primary key `scan_id`). -/
structure ScanRow where
  scan_id : Int
  created_at : Int
  git_commit : Option String
deriving DecidableEq

/-- A row of the `scan_endpoints` table (primary key `(scan_id, endpoint_id)`). -/
structure SnapRow where
  scan_id : Int
  endpoint_id : String
  method : String
  http_path : String
  rel_path : String
  handler_name : String
  decl_line : Int
  source : String
deriving DecidableEq

/-- The store state: the four tables of schema 1.2. -/
structure Store where
  files : List FileRow
  routes : List RouteRow
  scans : List ScanRow
  scan_endpoints : List SnapRow
deriving DecidableEq

/-- The stable route id: SHA-1 of
`f"{rel_path}|{r.method}|{r.path}|{r.handler_name}|{r.decorator_line}"`,
abstracted as the pre-image string. -/
def routeId (rel_path : String) (r : RouteDecl) : String :=
  rel_path ++ "|" ++ r.method ++ "|" ++ r.path ++ "|" ++ r.handler_name ++ "|"
    ++ toString r.decorator_line

/-- The tuple appended to `to_insert` for one input route in
`replace_routes_for_file`. -/
def routeRowOf (rel_path : String) (source : String) (ts : Int) (r : RouteDecl) :
    RouteRow :=
  { id := routeId rel_path r
    rel_path := rel_path
    method := pyUpper r.method
    http_path := r.path
    handler_name := r.handler_name
    start_line := r.start_line
    end_line := r.end_line
    decl_line := r.decorator_line
    source := source
    updated_at := ts }

/-- An `INSERT OR REPLACE` into a table whose primary key is `key`: the rows
sharing the new row's key are deleted and the new row is inserted. -/
def insertOrReplaceBy {α κ : Type} [DecidableEq κ] (key : α → κ)
    (tbl : List α) (row : α) : List α :=
  tbl.filter (fun x => decide (key x ≠ key row)) ++ [row]

/-- An `INSERT OR REPLACE` into `routes` (primary key `id`). -/
def insertOrReplaceRoute (tbl : List RouteRow) (row : RouteRow) : List RouteRow :=
  insertOrReplaceBy (fun r => r.id) tbl row

/-- An `INSERT OR REPLACE` into `files` (primary key `rel_path`). -/
def insertOrReplaceFile (tbl : List FileRow) (row : FileRow) : List FileRow :=
  insertOrReplaceBy (fun f => f.rel_path) tbl row

/-- An `INSERT OR REPLACE` into `scan_endpoints` (primary key `(scan_id, endpoint_id)`). -/
def insertOrReplaceSnap (tbl : List SnapRow) (row : SnapRow) : List SnapRow :=
  insertOrReplaceBy (fun s => (s.scan_id, s.endpoint_id)) tbl row

/-- The operation `remove_file(rel_path)`: delete the routes for the path, then the file row,
in one transaction. -/
def remove_file (st : Store) (rel_path : String) : Store :=
  { st with
    routes := st.routes.filter (fun r => r.rel_path != rel_path)
    files := st.files.filter (fun f => f.rel_path != rel_path) }

/-- The operation `replace_routes_for_file(rel_path, routes, source)`: build `to_insert`,
delete the old routes of the file, insert the new ones; returns
`len(to_insert)`.  `ts` is the `_now_ts()` wall-clock read. -/
def replace_routes_for_file (st : Store) (rel_path : String)
    (routes : List RouteDecl) (source : String) (ts : Int) : Store × Nat :=
  let to_insert := routes.map (routeRowOf rel_path source ts)
  let afterDelete := st.routes.filter (fun r => r.rel_path != rel_path)
  ({ st with routes := to_insert.foldl insertOrReplaceRoute afterDelete },
   to_insert.length)

/-- SQLite `LIKE '%s%'` (ASCII case-insensitive substring containment). -/
def likeContains (hay : String) (pat : String) : Bool :=
  decide ((pyUpper pat).data <:+: (pyUpper hay).data)

/-- A Python optional string filter argument: `if arg:` — `None` and the empty
string both disable the filter. -/
def passes (o : Option String) (test : String → Bool) : Bool :=
  match o with
  | none => true
  | some s => if s = "" then true else test s

/-- Strict lexicographic comparison of char lists by code point (the order
SQLite and Python use on the text values compared here). -/
def charsLtB : List Char → List Char → Bool
  | [], [] => false
  | [], _ :: _ => true
  | _ :: _, [] => false
  | a :: as, b :: bs =>
      if a.toNat < b.toNat then true
      else if b.toNat < a.toNat then false
      else charsLtB as bs

/-- Non-strict lexicographic comparison of char lists by code point. -/
def charsLeB : List Char → List Char → Bool
  | [], _ => true
  | _ :: _, [] => false
  | a :: as, b :: bs =>
      if a.toNat < b.toNat then true
      else if b.toNat < a.toNat then false
      else charsLeB as bs

/-- Strict lexicographic string order by code point. -/
def strLt (a b : String) : Prop :=
  charsLtB a.data b.data = true

/-- Non-strict lexicographic string order by code point. -/
def strLe (a b : String) : Prop :=
  charsLeB a.data b.data = true

instance : DecidableRel strLt := fun a b =>
  inferInstanceAs (Decidable (charsLtB a.data b.data = true))

instance : DecidableRel strLe := fun a b =>
  inferInstanceAs (Decidable (charsLeB a.data b.data = true))

/-- The `ORDER BY method, http_path, rel_path, decl_line` ordering as a lexicographic
relation on route rows. -/
def routeLe (a b : RouteRow) : Prop :=
  strLt a.method b.method ∨ (a.method = b.method ∧
    (strLt a.http_path b.http_path ∨ (a.http_path = b.http_path ∧
      (strLt a.rel_path b.rel_path ∨ (a.rel_path = b.rel_path ∧
        a.decl_line ≤ b.decl_line)))))

instance : DecidableRel routeLe := fun a b =>
  inferInstanceAs (Decidable (strLt a.method b.method ∨ (a.method = b.method ∧
    (strLt a.http_path b.http_path ∨ (a.http_path = b.http_path ∧
      (strLt a.rel_path b.rel_path ∨ (a.rel_path = b.rel_path ∧
        a.decl_line ≤ b.decl_line)))))))

/-- The query `list_routes(method, http_path, path_contains, file_contains,
handler_contains, limit)`: filtered rows, ordered by
`(method, http_path, rel_path, decl_line)`, truncated to `limit`. -/
def list_routes (st : Store) (method : Option String) (http_path : Option String)
    (path_contains : Option String) (file_contains : Option String)
    (handler_contains : Option String) (limit : Nat) : List RouteRow :=
  let rows := st.routes.filter (fun r =>
    passes method (fun m => r.method == pyUpper m) &&
    passes http_path (fun p => r.http_path == p) &&
    passes path_contains (fun s => likeContains r.http_path s) &&
    passes file_contains (fun s => likeContains r.rel_path s) &&
    passes handler_contains (fun s => likeContains r.handler_name s))
  (rows.insertionSort routeLe).take limit

/-- The body of the loop in `snapshot_current_endpoints`: walk the ordered
route listing, keep the first row per endpoint id (`seen` is the id set),
and project each kept row to the `scan_endpoints` tuple. -/
def snapshotLoop (scan_id : Int) : List RouteRow → List String → List SnapRow
  | [], _ => []
  | r :: rest, seen =>
      let method := pyUpper r.method
      let eid := _endpoint_id method r.http_path
      if seen.contains eid then
        snapshotLoop scan_id rest seen
      else
        { scan_id := scan_id
          endpoint_id := eid
          method := method
          http_path := r.http_path
          rel_path := r.rel_path
          handler_name := r.handler_name
          decl_line := r.decl_line
          source := r.source } :: snapshotLoop scan_id rest (eid :: seen)

/-- The `inserts` list computed by `snapshot_current_endpoints(scan_id)`:
the current route table read through `list_routes(limit=1_000_000)`,
collapsed to the first row per endpoint identity. -/
def snapshotInserts (st : Store) (scan_id : Int) : List SnapRow :=
  snapshotLoop scan_id (list_routes st none none none none none 1000000) []

/-- The operation `snapshot_current_endpoints(scan_id)`: bulk `INSERT OR REPLACE` of the
collapsed snapshot rows; returns `len(inserts)`. -/
def snapshot_current_endpoints (st : Store) (scan_id : Int) : Store × Nat :=
  let inserts := snapshotInserts st scan_id
  ({ st with scan_endpoints := inserts.foldl insertOrReplaceSnap st.scan_endpoints },
   inserts.length)

/-- Keep, for every `endpoint_id`, the last row carrying it (Python dict
comprehension semantics: the last assignment to a key wins; the model keeps
the surviving row at the position of its last occurrence, and every use
below is insensitive to the position). -/
def dedupKeepLast : List SnapRow → List SnapRow
  | [] => []
  | r :: rest =>
      if (rest.map (fun x => x.endpoint_id)).contains r.endpoint_id then
        dedupKeepLast rest
      else
        r :: dedupKeepLast rest

/-- The read `get_scan_endpoints(scan_id)`: the rows of `scan_endpoints` for the scan,
as the dict `endpoint_id -> row` (modelled as a row list with distinct ids). -/
def get_scan_endpoints (st : Store) (scan_id : Int) : List SnapRow :=
  dedupKeepLast (st.scan_endpoints.filter (fun r => r.scan_id == scan_id))

/-- An entry of the `moved` diff list. -/
structure MovedEntry where
  endpoint_id : String
  method : String
  http_path : String
  from_rel_path : String
  to_rel_path : String
  from_handler : String
  to_handler : String
deriving DecidableEq

/-- An entry of the `handler_changed` diff list. -/
structure HandlerChangedEntry where
  endpoint_id : String
  method : String
  http_path : String
  rel_path : String
  from_handler : String
  to_handler : String
deriving DecidableEq

/-- The result of `diff_scans`. -/
structure DiffResult where
  added : List SnapRow
  removed : List SnapRow
  moved : List MovedEntry
  handler_changed : List HandlerChangedEntry
deriving DecidableEq

/-- Python `sorted` on a list of (abstracted) endpoint-id strings. -/
def sortStrings (l : List String) : List String :=
  l.insertionSort strLe

/-- Dict lookup `m[i]` on a snapshot map. -/
def snapFind (m : List SnapRow) (i : String) : Option SnapRow :=
  m.find? (fun r => r.endpoint_id == i)

/-- The `moved` entry built for a common endpoint id whose owning file changed. -/
def movedOf (i : String) (ra rb : SnapRow) : MovedEntry :=
  { endpoint_id := i
    method := rb.method
    http_path := rb.http_path
    from_rel_path := ra.rel_path
    to_rel_path := rb.rel_path
    from_handler := ra.handler_name
    to_handler := rb.handler_name }

/-- The `handler_changed` entry built for a common endpoint id whose file is
unchanged but whose handler name changed. -/
def handlerChangedOf (i : String) (ra rb : SnapRow) : HandlerChangedEntry :=
  { endpoint_id := i
    method := rb.method
    http_path := rb.http_path
    rel_path := rb.rel_path
    from_handler := ra.handler_name
    to_handler := rb.handler_name }

/-- The diff `diff_scans(from_scan_id, to_scan_id)`.  The single Python loop over the
sorted common ids (which appends to `moved` and, via `continue`, otherwise to
`handler_changed`) is rendered as two `filterMap`s over the same sorted id
list; the resulting lists are element-for-element those of the loop. -/
def diff_scans (st : Store) (from_scan_id : Int) (to_scan_id : Int) : DiffResult :=
  let a := get_scan_endpoints st from_scan_id
  let b := get_scan_endpoints st to_scan_id
  let a_ids := a.map (fun r => r.endpoint_id)
  let b_ids := b.map (fun r => r.endpoint_id)
  let added := (sortStrings (b_ids.filter (fun i => !(a_ids.contains i)))).filterMap
    (fun i => snapFind b i)
  let removed := (sortStrings (a_ids.filter (fun i => !(b_ids.contains i)))).filterMap
    (fun i => snapFind a i)
  let common := sortStrings (a_ids.filter (fun i => b_ids.contains i))
  let moved := common.filterMap (fun i =>
    match snapFind a i, snapFind b i with
    | some ra, some rb =>
        if ra.rel_path ≠ rb.rel_path then some (movedOf i ra rb) else none
    | _, _ => none)
  let handler_changed := common.filterMap (fun i =>
    match snapFind a i, snapFind b i with
    | some ra, some rb =>
        if ra.rel_path = rb.rel_path ∧ ra.handler_name ≠ rb.handler_name then
          some (handlerChangedOf i ra rb)
        else none
    | _, _ => none)
  { added := added, removed := removed, moved := moved,
    handler_changed := handler_changed }

/-- The fingerprint `compute_file_fingerprint(path, max_bytes)`: the file is the byte list
`content` with modification time `mtime_ns`; returns
`(sha256, mtime_ns, size_bytes)`. -/
def compute_file_fingerprint (content : List Nat) (mtime_ns : Int)
    (max_bytes : Nat) : String × Int × Nat :=
  let size_bytes := content.length
  let data := if content.length > max_bytes then content.take max_bytes else content
  (_sha256_bytes data, mtime_ns, size_bytes)

/-- The endpoint identity computed for a stored route row inside the snapshot
loop: `_endpoint_id(str(r["method"]).upper(), str(r["http_path"]))`. -/
def eidOfRoute (r : RouteRow) : String :=
  _endpoint_id (pyUpper r.method) r.http_path

/-- The `scan_endpoints` tuple built from a surviving route row. -/
def snapRowOf (scan_id : Int) (r : RouteRow) : SnapRow :=
  { scan_id := scan_id
    endpoint_id := eidOfRoute r
    method := pyUpper r.method
    http_path := r.http_path
    rel_path := r.rel_path
    handler_name := r.handler_name
    decl_line := r.decl_line
    source := r.source }

/-- The route-table rows a single `replace_routes_for_file(rel_path, R,
source)` call leaves for its file: its `to_insert` list loaded into an empty
table under the `id` primary key. -/
def storedRoutesFor (rel_path : String) (routes : List RouteDecl)
    (source : String) (ts : Int) : List RouteRow :=
  (routes.map (routeRowOf rel_path source ts)).foldl insertOrReplaceRoute []

/-- The endpoint ids of a snapshot-row list. -/
def eidsOf (l : List SnapRow) : List String :=
  l.map (fun r => r.endpoint_id)

/-- A row of the legacy (schema 1.0) `files` table: absolute `path` column. -/
structure LegacyFileRow where
  path : String
  sha256 : String
  mtime_ns : Int
  size_bytes : Int
  last_scanned_at : Int
deriving DecidableEq

/-- A row of the legacy (schema 1.0) `routes` table: absolute `file_path`
column. -/
structure LegacyRouteRow where
  id : String
  file_path : String
  method : String
  http_path : String
  handler_name : String
  start_line : Int
  end_line : Int
  decl_line : Int
  source : String
  updated_at : Int
deriving DecidableEq

/-- What `_init_db_and_migrate` reads from a pre-existing database file: the
`meta` key-value table, the table/column introspection results, and the row
contents.  A physical database holds one `files`/`routes` table pair;
`legacyFiles`/`legacyRoutes` are their contents read under the 1.0 column
layout and `files`/`routes` under the 1.1 layout — only the pair matching
the detected layout is consulted on any control path. -/
structure RawDB where
  meta : List (String × String)
  hasFilesTable : Bool
  hasRoutesTable : Bool
  filesCols : List String
  routesCols : List String
  legacyFiles : List LegacyFileRow
  legacyRoutes : List LegacyRouteRow
  files : List FileRow
  routes : List RouteRow
deriving DecidableEq

/-- The file/route contents after `_init_db_and_migrate` succeeds, plus the
stored schema version (always "1.2" on success). -/
structure MigratedDB where
  schema_version : String
  files : List FileRow
  routes : List RouteRow
deriving DecidableEq

/-- The metadata read `_get_meta(con, key)`. -/
def _get_meta (meta : List (String × String)) (key : String) : Option String :=
  (meta.find? (fun kv => kv.1 == key)).map (fun kv => kv.2)

/-- The relativization `str(Path(p).resolve().relative_to(self.repo_root))` with its `except`
handler: `relTo` is the filesystem-dependent relativization oracle (`none`
means the call raised), and on failure the original string is kept verbatim. -/
def migratePath (relTo : String → Option String) (p : String) : String :=
  match relTo p with
  | some rel => rel
  | none => p

/-- The `files_new` tuple built from one legacy file row. -/
def migFileRow (relTo : String → Option String) (row : LegacyFileRow) : FileRow :=
  { rel_path := migratePath relTo row.path
    sha256 := row.sha256
    mtime_ns := row.mtime_ns
    size_bytes := row.size_bytes
    last_scanned_at := row.last_scanned_at }

/-- The `routes_new` tuple built from one legacy route row. -/
def migRouteRow (relTo : String → Option String) (row : LegacyRouteRow) : RouteRow :=
  { id := row.id
    rel_path := migratePath relTo row.file_path
    method := row.method
    http_path := row.http_path
    handler_name := row.handler_name
    start_line := row.start_line
    end_line := row.end_line
    decl_line := row.decl_line
    source := row.source
    updated_at := row.updated_at }

/-- The `files` half of `_migrate_1_0_to_1_1`: copy every legacy row into
`files_new` (`INSERT OR REPLACE`, key `rel_path`), relativizing the path. -/
def _migrate_1_0_to_1_1_files (relTo : String → Option String)
    (rows : List LegacyFileRow) : List FileRow :=
  rows.foldl (fun acc row => insertOrReplaceFile acc (migFileRow relTo row)) []

/-- The `routes` half of `_migrate_1_0_to_1_1`: copy every legacy row into
`routes_new` (`INSERT OR REPLACE`, key `id`), relativizing `file_path`. -/
def _migrate_1_0_to_1_1_routes (relTo : String → Option String)
    (rows : List LegacyRouteRow) : List RouteRow :=
  rows.foldl (fun acc row => insertOrReplaceRoute acc (migRouteRow relTo row)) []

/-- The schema state machine `_init_db_and_migrate`:
* no stored `schema_version` and legacy columns detected → run the 1.0→1.1
  rewrite, set version "1.1", then fall through the "1.1" branch (additive
  creation of the scan tables) ending at "1.2";
* no stored version, no legacy layout → create schema 1.2 directly;
* "1.1" → additive migration to "1.2";
* "1.2" → idempotent ensure-create;
* anything else → `RuntimeError(f"Unsupported schema_version in DB: ...")`. -/
def _init_db_and_migrate (relTo : String → Option String) (db : RawDB) :
    Except String MigratedDB :=
  match _get_meta db.meta "schema_version" with
  | none =>
      let old_schema_1_0 :=
        if db.hasFilesTable && db.hasRoutesTable then
          db.filesCols.contains "path" || db.routesCols.contains "file_path"
        else false
      if old_schema_1_0 then
        Except.ok
          { schema_version := "1.2"
            files := _migrate_1_0_to_1_1_files relTo db.legacyFiles
            routes := _migrate_1_0_to_1_1_routes relTo db.legacyRoutes }
      else
        Except.ok { schema_version := "1.2", files := db.files, routes := db.routes }
  | some v =>
      if v = "1.1" then
        Except.ok { schema_version := "1.2", files := db.files, routes := db.routes }
      else if v = "1.2" then
        Except.ok { schema_version := "1.2", files := db.files, routes := db.routes }
      else
        Except.error ("Unsupported schema_version in DB: " ++ v)

/-! ### Concrete fixtures used by the scenario conjuncts and witnesses -/

/-- A store with all four tables empty (a freshly created schema-1.2 DB). -/
def emptyStore : Store :=
  { files := [], routes := [], scans := [], scan_endpoints := [] }

/-- A `GET /a` declaration handled by `h1`, decorator on line 3. -/
def declA1 : RouteDecl :=
  { method := "get", path := "/a", handler_name := "h1",
    start_line := 4, end_line := 6, decorator_line := 3 }

/-- A `GET /a` declaration in the same file handled by `h2`, decorator on
line 9 (same endpoint identity as `declA1`, different handler and line). -/
def declA2 : RouteDecl :=
  { method := "GET", path := "/a", handler_name := "h2",
    start_line := 10, end_line := 12, decorator_line := 9 }

/-- The store after extracting both duplicate declarations of `GET /a` from
one file (inserted in reverse line order, so the snapshot ordering — not the
insertion order — decides the survivor). -/
def dupStore : Store :=
  (replace_routes_for_file emptyStore "f.py" [declA2, declA1] "ast" 0).1

/-- Route row number `i` of the oversized table: `GET` on a path of `i`
copies of `a`, so all 1 000 001 rows have pairwise distinct endpoint
identities. -/
def bigRoute (i : Nat) : RouteRow :=
  { id := toString i, rel_path := "f.py", method := "GET",
    http_path := String.mk (List.replicate i 'a'), handler_name := "h",
    start_line := 0, end_line := 0, decl_line := 0, source := "ast",
    updated_at := 0 }

/-- A store whose route table holds 1 000 001 rows with distinct endpoint
identities — one more than the `LIMIT 1_000_000` used by
`snapshot_current_endpoints`. -/
def bigStore : Store :=
  { files := [], routes := (List.range 1000001).map bigRoute,
    scans := [], scan_endpoints := [] }

/-- Scan 1's snapshot of `GET /a`: declared in `f.py`, handled by `h1`. -/
def snapA1 : SnapRow :=
  { scan_id := 1, endpoint_id := "GET|/a", method := "GET", http_path := "/a",
    rel_path := "f.py", handler_name := "h1", decl_line := 3, source := "ast" }

/-- Scan 2's snapshot of `GET /a`: now declared in `g.py`, still `h1`. -/
def snapA2 : SnapRow :=
  { scan_id := 2, endpoint_id := "GET|/a", method := "GET", http_path := "/a",
    rel_path := "g.py", handler_name := "h1", decl_line := 3, source := "ast" }

/-- A store holding two scans whose snapshots place the same endpoint in two
different files (the `moved` scenario). -/
def movedScenarioStore : Store :=
  { files := [], routes := [],
    scans := [{ scan_id := 1, created_at := 0, git_commit := none },
              { scan_id := 2, created_at := 1, git_commit := none }],
    scan_endpoints := [snapA1, snapA2] }

/-- A store with one scan (id 1) and its one snapshot row; scan id 99 is
absent from it. -/
def oneScanStore : Store :=
  { files := [], routes := [],
    scans := [{ scan_id := 1, created_at := 0, git_commit := none }],
    scan_endpoints := [snapA1] }

/-- A legacy file row whose absolute path lies outside the repository root,
so relativization fails. -/
def outOfRootFileRow : LegacyFileRow :=
  { path := "/outside/app.py", sha256 := "s", mtime_ns := 1, size_bytes := 2,
    last_scanned_at := 3 }

/-- A legacy (schema 1.0) database: no stored version, `files`/`routes`
tables present with the old absolute-path columns, holding one out-of-root
file row. -/
def rawLegacyOutOfRoot : RawDB :=
  { meta := [], hasFilesTable := true, hasRoutesTable := true,
    filesCols := ["path", "sha256", "mtime_ns", "size_bytes", "last_scanned_at"],
    routesCols := ["id", "file_path"], legacyFiles := [outOfRootFileRow],
    legacyRoutes := [], files := [], routes := [] }

/-- A database whose metadata stores an unrecognized schema version. -/
def rawUnknownVersion : RawDB :=
  { meta := [("schema_version", "0.9")], hasFilesTable := true,
    hasRoutesTable := true, filesCols := ["rel_path"], routesCols := ["rel_path"],
    legacyFiles := [], legacyRoutes := [], files := [], routes := [] }

/-! ### Generic facts about `INSERT OR REPLACE` folds -/

theorem filter_insertOrReplaceBy {α κ : Type} [DecidableEq κ] (key : α → κ)
    (q : α → Bool) (tbl : List α) (row : α) (hq : q row = true) :
    (insertOrReplaceBy key tbl row).filter q
      = insertOrReplaceBy key (tbl.filter q) row := by
  unfold insertOrReplaceBy
  rw [List.filter_append, List.filter_filter, List.filter_filter]
  simp [hq, Bool.and_comm]

theorem foldl_insertOrReplaceBy_filter {α κ : Type} [DecidableEq κ] (key : α → κ)
    (q : α → Bool) (rows : List α) (hrows : ∀ r ∈ rows, q r = true) :
    ∀ base, (rows.foldl (insertOrReplaceBy key) base).filter q
      = rows.foldl (insertOrReplaceBy key) (base.filter q) := by
  induction rows with
  | nil => intro base; rfl
  | cons r rows ih =>
      intro base
      have hr : q r = true := hrows r (List.mem_cons_self r rows)
      have hrest : ∀ x ∈ rows, q x = true := fun x hx =>
        hrows x (List.mem_cons_of_mem r hx)
      simp only [List.foldl_cons]
      rw [ih hrest, filter_insertOrReplaceBy key q base r hr]

theorem keys_insertOrReplaceBy_nodup {α κ : Type} [DecidableEq κ] (key : α → κ)
    (tbl : List α) (row : α) (h : (tbl.map key).Nodup) :
    ((insertOrReplaceBy key tbl row).map key).Nodup := by
  unfold insertOrReplaceBy
  rw [List.map_append]
  refine List.nodup_append.mpr ⟨?_, List.nodup_singleton _, ?_⟩
  · exact ((List.filter_sublist tbl).map key).nodup h
  · intro k hk hk2
    rcases List.mem_map.mp hk with ⟨x, hx, hxk⟩
    have hne := (List.mem_filter.mp hx).2
    simp only [decide_eq_true_eq] at hne
    have : k = key row := List.mem_singleton.mp hk2
    exact hne (by rw [hxk, this])

theorem foldl_insertOrReplaceBy_keys_nodup {α κ : Type} [DecidableEq κ]
    (key : α → κ) (rows : List α) :
    ∀ base, (base.map key).Nodup →
      ((rows.foldl (insertOrReplaceBy key) base).map key).Nodup := by
  induction rows with
  | nil => intro base h; exact h
  | cons r rows ih =>
      intro base h
      exact ih _ (keys_insertOrReplaceBy_nodup key base r h)

theorem foldl_insertOrReplaceBy_of_nodup {α κ : Type} [DecidableEq κ]
    (key : α → κ) (rows : List α) :
    ∀ base, ((base ++ rows).map key).Nodup →
      rows.foldl (insertOrReplaceBy key) base = base ++ rows := by
  induction rows with
  | nil => intro base _; simp
  | cons r rows ih =>
      intro base h
      have hins : insertOrReplaceBy key base r = base ++ [r] := by
        unfold insertOrReplaceBy
        congr 1
        refine List.filter_eq_self.mpr ?_
        intro x hx
        simp only [decide_eq_true_eq]
        intro hxr
        rw [List.map_append, List.nodup_append] at h
        exact h.2.2 (List.mem_map.mpr ⟨x, hx, rfl⟩)
          (by simp only [List.map_cons, List.mem_cons]; exact Or.inl hxr)
      simp only [List.foldl_cons, hins]
      rw [ih (base ++ [r]) (by simpa using h)]
      simp

/-! ### The endpoint-id string order is total and transitive -/

theorem charsLeB_total : ∀ as bs, charsLeB as bs = true ∨ charsLeB bs as = true
  | [], _ => Or.inl rfl
  | _ :: _, [] => Or.inr rfl
  | a :: as, b :: bs => by
      by_cases h1 : a.toNat < b.toNat
      · left; simp [charsLeB, h1]
      · by_cases h2 : b.toNat < a.toNat
        · right; simp [charsLeB, h2]
        · rcases charsLeB_total as bs with h | h
          · left; simp [charsLeB, h1, h2, h]
          · right; simp [charsLeB, h1, h2, h]

theorem charsLeB_trans : ∀ as bs cs, charsLeB as bs = true →
    charsLeB bs cs = true → charsLeB as cs = true
  | [], _, _, _, _ => rfl
  | _ :: _, [], _, h1, _ => by simp [charsLeB] at h1
  | _ :: _, _ :: _, [], _, h2 => by simp [charsLeB] at h2
  | a :: as, b :: bs, c :: cs, h1, h2 => by
      simp only [charsLeB] at h1 h2 ⊢
      by_cases hab : a.toNat < b.toNat <;> by_cases hba : b.toNat < a.toNat <;>
        by_cases hbc : b.toNat < c.toNat <;> by_cases hcb : c.toNat < b.toNat <;>
        by_cases hac : a.toNat < c.toNat <;> by_cases hca : c.toNat < a.toNat <;>
        simp [hab, hba, hbc, hcb, hac, hca] at h1 h2 ⊢ <;>
        first
          | omega
          | exact charsLeB_trans as bs cs h1 h2

instance : IsTotal String strLe :=
  ⟨fun a b => charsLeB_total a.data b.data⟩

instance : IsTrans String strLe :=
  ⟨fun a b c => charsLeB_trans a.data b.data c.data⟩

/-! ### Facts about the snapshot collapse loop -/

theorem snapshotLoop_cons (sid : Int) (r : RouteRow) (rest : List RouteRow)
    (seen : List String) :
    snapshotLoop sid (r :: rest) seen =
      if eidOfRoute r ∈ seen then snapshotLoop sid rest seen
      else snapRowOf sid r :: snapshotLoop sid rest (eidOfRoute r :: seen) := by
  by_cases h : eidOfRoute r ∈ seen
  · have hb : seen.contains (eidOfRoute r) = true := by simpa using h
    simp only [snapshotLoop, if_pos h]
    rw [show seen.contains (_endpoint_id (pyUpper r.method) r.http_path) = true from hb]
    simp
  · have hb : seen.contains (eidOfRoute r) = false := by simpa using h
    simp only [snapshotLoop, if_neg h]
    rw [show seen.contains (_endpoint_id (pyUpper r.method) r.http_path) = false from hb]
    simp [snapRowOf, eidOfRoute]

theorem snapshotLoop_scan_id (sid : Int) :
    ∀ rows : List RouteRow, ∀ seen, ∀ s ∈ snapshotLoop sid rows seen, s.scan_id = sid
  | [] => by intro seen s hs; simp [snapshotLoop] at hs
  | r :: rest => by
      intro seen s hs
      rw [snapshotLoop_cons] at hs
      by_cases h : eidOfRoute r ∈ seen
      · rw [if_pos h] at hs
        exact snapshotLoop_scan_id sid rest seen s hs
      · rw [if_neg h] at hs
        rcases List.mem_cons.mp hs with rfl | hs
        · rfl
        · exact snapshotLoop_scan_id sid rest _ s hs

theorem snapshotLoop_length_le (sid : Int) :
    ∀ rows : List RouteRow, ∀ seen, (snapshotLoop sid rows seen).length ≤ rows.length
  | [] => by intro seen; simp [snapshotLoop]
  | r :: rest => by
      intro seen
      rw [snapshotLoop_cons]
      by_cases h : eidOfRoute r ∈ seen
      · rw [if_pos h]
        exact Nat.le_succ_of_le (snapshotLoop_length_le sid rest seen)
      · rw [if_neg h]
        simpa using Nat.succ_le_succ (snapshotLoop_length_le sid rest _)

theorem snapshotLoop_eids (sid : Int) :
    ∀ rows : List RouteRow, ∀ seen,
      (eidsOf (snapshotLoop sid rows seen)).Nodup ∧
        ∀ e ∈ eidsOf (snapshotLoop sid rows seen), e ∉ seen
  | [] => by intro seen; simp [snapshotLoop, eidsOf]
  | r :: rest => by
      intro seen
      rw [snapshotLoop_cons]
      by_cases h : eidOfRoute r ∈ seen
      · rw [if_pos h]
        exact snapshotLoop_eids sid rest seen
      · rw [if_neg h]
        obtain ⟨hnd, havoid⟩ := snapshotLoop_eids sid rest (eidOfRoute r :: seen)
        have heid : (snapRowOf sid r).endpoint_id = eidOfRoute r := rfl
        constructor
        · simp only [eidsOf, List.map_cons, List.nodup_cons, heid]
          refine ⟨fun hmem => ?_, hnd⟩
          exact (havoid _ hmem) (List.mem_cons_self _ _)
        · intro e he
          simp only [eidsOf, List.map_cons, List.mem_cons, heid] at he
          rcases he with rfl | he
          · exact h
          · intro hseen
            exact (havoid e he) (List.mem_cons_of_mem _ hseen)

theorem snapshotLoop_mem_eids (sid : Int) :
    ∀ rows : List RouteRow, ∀ seen e,
      e ∈ eidsOf (snapshotLoop sid rows seen) ↔
        (e ∈ rows.map eidOfRoute ∧ e ∉ seen)
  | [] => by intro seen e; simp [snapshotLoop, eidsOf]
  | r :: rest => by
      intro seen e
      rw [snapshotLoop_cons]
      by_cases h : eidOfRoute r ∈ seen
      · rw [if_pos h]
        rw [snapshotLoop_mem_eids sid rest seen e]
        simp only [List.map_cons, List.mem_cons]
        constructor
        · rintro ⟨he, hn⟩; exact ⟨Or.inr he, hn⟩
        · rintro ⟨he | he, hn⟩
          · exact absurd (he ▸ h) hn
          · exact ⟨he, hn⟩
      · rw [if_neg h]
        have heid : (snapRowOf sid r).endpoint_id = eidOfRoute r := rfl
        simp only [eidsOf, List.map_cons, List.mem_cons, heid]
        rw [show (snapshotLoop sid rest (eidOfRoute r :: seen)).map
            (fun x => x.endpoint_id) = eidsOf (snapshotLoop sid rest (eidOfRoute r :: seen))
          from rfl]
        rw [snapshotLoop_mem_eids sid rest (eidOfRoute r :: seen) e]
        simp only [List.mem_cons]
        constructor
        · rintro (rfl | ⟨he, hn⟩)
          · exact ⟨Or.inl rfl, h⟩
          · exact ⟨Or.inr he, fun hs => hn (Or.inr hs)⟩
        · rintro ⟨rfl | he, hn⟩
          · exact Or.inl rfl
          · rcases eq_or_ne e (eidOfRoute r) with rfl | hne
            · exact Or.inl rfl
            · exact Or.inr ⟨he, fun hs => (by
                rcases hs with hs | hs
                · exact hne hs
                · exact hn hs)⟩

theorem snapshotLoop_find (sid : Int) :
    ∀ rows : List RouteRow, ∀ seen, ∀ s ∈ snapshotLoop sid rows seen,
      ∃ r, rows.find? (fun r => eidOfRoute r == s.endpoint_id) = some r ∧
        s = snapRowOf sid r
  | [] => by intro seen s hs; simp [snapshotLoop] at hs
  | r :: rest => by
      intro seen s hs
      rw [snapshotLoop_cons] at hs
      by_cases h : eidOfRoute r ∈ seen
      · rw [if_pos h] at hs
        obtain ⟨r', hfind, hs'⟩ := snapshotLoop_find sid rest seen s hs
        have hsavoid : s.endpoint_id ∉ seen := by
          have := (snapshotLoop_eids sid rest seen).2
          exact this s.endpoint_id (List.mem_map.mpr ⟨s, hs, rfl⟩)
        have hne : (eidOfRoute r == s.endpoint_id) = false := by
          apply beq_false_of_ne
          intro heq
          exact hsavoid (heq ▸ h)
        refine ⟨r', ?_, hs'⟩
        rw [List.find?_cons, hne]
        exact hfind
      · rw [if_neg h] at hs
        rcases List.mem_cons.mp hs with rfl | hs
        · refine ⟨r, ?_, rfl⟩
          have : (eidOfRoute r == (snapRowOf sid r).endpoint_id) = true := by
            simp [snapRowOf]
          rw [List.find?_cons, this]
        · obtain ⟨r', hfind, hs'⟩ := snapshotLoop_find sid rest _ s hs
          have hsavoid : s.endpoint_id ∉ eidOfRoute r :: seen := by
            have := (snapshotLoop_eids sid rest (eidOfRoute r :: seen)).2
            exact this s.endpoint_id (List.mem_map.mpr ⟨s, hs, rfl⟩)
          have hne : (eidOfRoute r == s.endpoint_id) = false := by
            apply beq_false_of_ne
            intro heq
            exact hsavoid (heq ▸ List.mem_cons_self _ _)
          refine ⟨r', ?_, hs'⟩
          rw [List.find?_cons, hne]
          exact hfind

/-! ### Facts about snapshot maps (`get_scan_endpoints`) and dict lookup -/

theorem dedupKeepLast_cons (r : SnapRow) (rest : List SnapRow) :
    dedupKeepLast (r :: rest) =
      if r.endpoint_id ∈ eidsOf rest then dedupKeepLast rest
      else r :: dedupKeepLast rest := by
  by_cases h : r.endpoint_id ∈ eidsOf rest
  · have hb : (rest.map (fun x => x.endpoint_id)).contains r.endpoint_id = true := by
      simpa [eidsOf] using h
    simp only [dedupKeepLast, hb, if_pos h]
    simp
  · have hb : (rest.map (fun x => x.endpoint_id)).contains r.endpoint_id = false := by
      simpa [eidsOf] using h
    simp only [dedupKeepLast, hb, if_neg h]
    simp

theorem dedupKeepLast_subset : ∀ l : List SnapRow, ∀ r ∈ dedupKeepLast l, r ∈ l
  | [] => by intro r hr; simp [dedupKeepLast] at hr
  | x :: rest => by
      intro r hr
      rw [dedupKeepLast_cons] at hr
      by_cases h : x.endpoint_id ∈ eidsOf rest
      · rw [if_pos h] at hr
        exact List.mem_cons_of_mem x (dedupKeepLast_subset rest r hr)
      · rw [if_neg h] at hr
        rcases List.mem_cons.mp hr with rfl | hr
        · exact List.mem_cons_self _ _
        · exact List.mem_cons_of_mem x (dedupKeepLast_subset rest r hr)

theorem mem_eids_dedupKeepLast : ∀ l : List SnapRow, ∀ e,
    (e ∈ eidsOf (dedupKeepLast l) ↔ e ∈ eidsOf l)
  | [] => by intro e; simp [dedupKeepLast, eidsOf]
  | x :: rest => by
      intro e
      rw [dedupKeepLast_cons]
      by_cases h : x.endpoint_id ∈ eidsOf rest
      · rw [if_pos h]
        rw [mem_eids_dedupKeepLast rest e]
        simp only [eidsOf, List.map_cons, List.mem_cons]
        constructor
        · intro he; exact Or.inr he
        · rintro (rfl | he)
          · simpa [eidsOf] using h
          · exact he
      · rw [if_neg h]
        simp only [eidsOf, List.map_cons, List.mem_cons]
        rw [show (dedupKeepLast rest).map (fun r => r.endpoint_id)
            = eidsOf (dedupKeepLast rest) from rfl,
          mem_eids_dedupKeepLast rest e]
        rfl

theorem eids_dedupKeepLast_nodup : ∀ l : List SnapRow,
    (eidsOf (dedupKeepLast l)).Nodup
  | [] => by simp [dedupKeepLast, eidsOf]
  | x :: rest => by
      rw [dedupKeepLast_cons]
      by_cases h : x.endpoint_id ∈ eidsOf rest
      · rw [if_pos h]
        exact eids_dedupKeepLast_nodup rest
      · rw [if_neg h]
        simp only [eidsOf, List.map_cons, List.nodup_cons]
        refine ⟨fun hmem => ?_, eids_dedupKeepLast_nodup rest⟩
        exact h ((mem_eids_dedupKeepLast rest x.endpoint_id).mp hmem)

theorem get_scan_endpoints_eids_nodup (st : Store) (scan_id : Int) :
    (eidsOf (get_scan_endpoints st scan_id)).Nodup :=
  eids_dedupKeepLast_nodup _

theorem snapFind_eq_some_iff : ∀ l : List SnapRow, (eidsOf l).Nodup →
    ∀ e r, (snapFind l e = some r ↔ (r ∈ l ∧ r.endpoint_id = e))
  | [] => by intro _ e r; simp [snapFind]
  | x :: rest => by
      intro hnd e r
      simp only [eidsOf, List.map_cons, List.nodup_cons] at hnd
      by_cases hx : x.endpoint_id = e
      · have hb : (x.endpoint_id == e) = true := beq_iff_eq.mpr hx
        rw [snapFind, List.find?_cons, hb]
        constructor
        · intro hsome
          have : x = r := Option.some.inj hsome
          exact ⟨this ▸ List.mem_cons_self _ _, this ▸ hx⟩
        · rintro ⟨hmem, hre⟩
          rcases List.mem_cons.mp hmem with rfl | hmem
          · rfl
          · exact absurd (show x.endpoint_id ∈ rest.map (fun s => s.endpoint_id) from
              List.mem_map.mpr ⟨r, hmem, by rw [hre, hx]⟩) hnd.1
      · have hb : (x.endpoint_id == e) = false := beq_false_of_ne hx
        rw [snapFind, List.find?_cons, hb]
        rw [show List.find? (fun s => s.endpoint_id == e) rest = snapFind rest e from rfl]
        rw [snapFind_eq_some_iff rest hnd.2 e r]
        constructor
        · rintro ⟨hmem, hre⟩; exact ⟨List.mem_cons_of_mem x hmem, hre⟩
        · rintro ⟨hmem, hre⟩
          rcases List.mem_cons.mp hmem with rfl | hmem
          · exact absurd hre hx
          · exact ⟨hmem, hre⟩

theorem snapFind_isSome_iff (l : List SnapRow) (e : String) :
    (∃ r, snapFind l e = some r) ↔ e ∈ eidsOf l := by
  constructor
  · rintro ⟨r, hr⟩
    have hmem := List.mem_of_find?_eq_some hr
    have hp := List.find?_some hr
    exact List.mem_map.mpr ⟨r, hmem, beq_iff_eq.mp hp⟩
  · intro he
    rcases List.mem_map.mp he with ⟨r, hr, hre⟩
    have : (List.find? (fun s => s.endpoint_id == e) l).isSome := by
      rw [List.find?_isSome]
      exact ⟨r, hr, beq_iff_eq.mpr hre⟩
    rcases Option.isSome_iff_exists.mp this with ⟨r', hr'⟩
    exact ⟨r', hr'⟩

/-! ### Dissecting `diff_scans` -/

theorem mem_sortStrings (l : List String) (i : String) :
    i ∈ sortStrings l ↔ i ∈ l :=
  (List.perm_insertionSort strLe l).mem_iff

theorem sortStrings_sorted (l : List String) :
    List.Sorted strLe (sortStrings l) :=
  List.sorted_insertionSort strLe l

theorem diff_scans_added_eq (st : Store) (f t : Int) :
    (diff_scans st f t).added =
      (sortStrings ((eidsOf (get_scan_endpoints st t)).filter
        (fun i => !((eidsOf (get_scan_endpoints st f)).contains i)))).filterMap
        (fun i => snapFind (get_scan_endpoints st t) i) := rfl

theorem diff_scans_removed_eq (st : Store) (f t : Int) :
    (diff_scans st f t).removed =
      (sortStrings ((eidsOf (get_scan_endpoints st f)).filter
        (fun i => !((eidsOf (get_scan_endpoints st t)).contains i)))).filterMap
        (fun i => snapFind (get_scan_endpoints st f) i) := rfl

theorem diff_scans_moved_eq (st : Store) (f t : Int) :
    (diff_scans st f t).moved =
      (sortStrings ((eidsOf (get_scan_endpoints st f)).filter
        (fun i => (eidsOf (get_scan_endpoints st t)).contains i))).filterMap
        (fun i =>
          match snapFind (get_scan_endpoints st f) i,
              snapFind (get_scan_endpoints st t) i with
          | some ra, some rb =>
              if ra.rel_path ≠ rb.rel_path then some (movedOf i ra rb) else none
          | _, _ => none) := rfl

theorem diff_scans_handler_changed_eq (st : Store) (f t : Int) :
    (diff_scans st f t).handler_changed =
      (sortStrings ((eidsOf (get_scan_endpoints st f)).filter
        (fun i => (eidsOf (get_scan_endpoints st t)).contains i))).filterMap
        (fun i =>
          match snapFind (get_scan_endpoints st f) i,
              snapFind (get_scan_endpoints st t) i with
          | some ra, some rb =>
              if ra.rel_path = rb.rel_path ∧ ra.handler_name ≠ rb.handler_name then
                some (handlerChangedOf i ra rb)
              else none
          | _, _ => none) := rfl

theorem mem_diff_added_iff (st : Store) (f t : Int) (r : SnapRow) :
    r ∈ (diff_scans st f t).added ↔
      (r ∈ get_scan_endpoints st t ∧
        r.endpoint_id ∉ eidsOf (get_scan_endpoints st f)) := by
  rw [diff_scans_added_eq, List.mem_filterMap]
  constructor
  · rintro ⟨i, hi, hfind⟩
    rw [mem_sortStrings, List.mem_filter] at hi
    obtain ⟨hib, hia⟩ := hi
    have hia' : i ∉ eidsOf (get_scan_endpoints st f) := by simpa using hia
    have := (snapFind_eq_some_iff _ (get_scan_endpoints_eids_nodup st t) i r).mp hfind
    exact ⟨this.1, this.2 ▸ hia'⟩
  · rintro ⟨hmem, hnot⟩
    refine ⟨r.endpoint_id, ?_, ?_⟩
    · rw [mem_sortStrings, List.mem_filter]
      refine ⟨List.mem_map.mpr ⟨r, hmem, rfl⟩, by simpa using hnot⟩
    · exact (snapFind_eq_some_iff _ (get_scan_endpoints_eids_nodup st t) _ r).mpr
        ⟨hmem, rfl⟩

theorem mem_diff_removed_iff (st : Store) (f t : Int) (r : SnapRow) :
    r ∈ (diff_scans st f t).removed ↔
      (r ∈ get_scan_endpoints st f ∧
        r.endpoint_id ∉ eidsOf (get_scan_endpoints st t)) := by
  rw [diff_scans_removed_eq, List.mem_filterMap]
  constructor
  · rintro ⟨i, hi, hfind⟩
    rw [mem_sortStrings, List.mem_filter] at hi
    obtain ⟨hib, hia⟩ := hi
    have hia' : i ∉ eidsOf (get_scan_endpoints st t) := by simpa using hia
    have := (snapFind_eq_some_iff _ (get_scan_endpoints_eids_nodup st f) i r).mp hfind
    exact ⟨this.1, this.2 ▸ hia'⟩
  · rintro ⟨hmem, hnot⟩
    refine ⟨r.endpoint_id, ?_, ?_⟩
    · rw [mem_sortStrings, List.mem_filter]
      refine ⟨List.mem_map.mpr ⟨r, hmem, rfl⟩, by simpa using hnot⟩
    · exact (snapFind_eq_some_iff _ (get_scan_endpoints_eids_nodup st f) _ r).mpr
        ⟨hmem, rfl⟩

theorem moved_fun_eq_some_iff (a b : List SnapRow) (i : String) (m : MovedEntry) :
    ((match snapFind a i, snapFind b i with
      | some ra, some rb =>
          if ra.rel_path ≠ rb.rel_path then some (movedOf i ra rb) else none
      | _, _ => none) = some m) ↔
      (∃ ra rb, snapFind a i = some ra ∧ snapFind b i = some rb ∧
        ra.rel_path ≠ rb.rel_path ∧ m = movedOf i ra rb) := by
  rcases ha : snapFind a i with _ | ra
  · simp [ha]
  · rcases hb : snapFind b i with _ | rb
    · simp [ha, hb]
    · simp only [ha, hb]
      by_cases hcond : ra.rel_path ≠ rb.rel_path
      · rw [if_pos hcond]
        constructor
        · intro hsome
          exact ⟨ra, rb, rfl, rfl, hcond, (Option.some.inj hsome).symm⟩
        · rintro ⟨ra', rb', hra', hrb', _, rfl⟩
          rw [Option.some.inj hra', Option.some.inj hrb']
      · rw [if_neg hcond]
        constructor
        · intro hsome; exact absurd hsome (by simp)
        · rintro ⟨ra', rb', hra', hrb', hcond', rfl⟩
          exact absurd (Option.some.inj hra' ▸ Option.some.inj hrb' ▸ hcond') hcond

theorem handler_fun_eq_some_iff (a b : List SnapRow) (i : String)
    (h : HandlerChangedEntry) :
    ((match snapFind a i, snapFind b i with
      | some ra, some rb =>
          if ra.rel_path = rb.rel_path ∧ ra.handler_name ≠ rb.handler_name then
            some (handlerChangedOf i ra rb)
          else none
      | _, _ => none) = some h) ↔
      (∃ ra rb, snapFind a i = some ra ∧ snapFind b i = some rb ∧
        ra.rel_path = rb.rel_path ∧ ra.handler_name ≠ rb.handler_name ∧
        h = handlerChangedOf i ra rb) := by
  rcases ha : snapFind a i with _ | ra
  · simp [ha]
  · rcases hb : snapFind b i with _ | rb
    · simp [ha, hb]
    · simp only [ha, hb]
      by_cases hcond : ra.rel_path = rb.rel_path ∧ ra.handler_name ≠ rb.handler_name
      · rw [if_pos hcond]
        constructor
        · intro hsome
          exact ⟨ra, rb, rfl, rfl, hcond.1, hcond.2, (Option.some.inj hsome).symm⟩
        · rintro ⟨ra', rb', hra', hrb', _, _, rfl⟩
          rw [Option.some.inj hra', Option.some.inj hrb']
      · rw [if_neg hcond]
        constructor
        · intro hsome; exact absurd hsome (by simp)
        · rintro ⟨ra', rb', hra', hrb', h1, h2, rfl⟩
          exact absurd (Option.some.inj hra' ▸ Option.some.inj hrb' ▸ ⟨h1, h2⟩) hcond

theorem mem_common_ids_iff (st : Store) (f t : Int) (i : String) :
    i ∈ sortStrings ((eidsOf (get_scan_endpoints st f)).filter
        (fun j => (eidsOf (get_scan_endpoints st t)).contains j)) ↔
      (i ∈ eidsOf (get_scan_endpoints st f) ∧
        i ∈ eidsOf (get_scan_endpoints st t)) := by
  rw [mem_sortStrings, List.mem_filter]
  constructor
  · rintro ⟨h1, h2⟩; exact ⟨h1, by simpa using h2⟩
  · rintro ⟨h1, h2⟩; exact ⟨h1, by simpa using h2⟩

theorem mem_diff_moved_iff (st : Store) (f t : Int) (m : MovedEntry) :
    m ∈ (diff_scans st f t).moved ↔
      (∃ ra rb, ra ∈ get_scan_endpoints st f ∧ rb ∈ get_scan_endpoints st t ∧
        ra.endpoint_id = m.endpoint_id ∧ rb.endpoint_id = m.endpoint_id ∧
        ra.rel_path ≠ rb.rel_path ∧ m = movedOf m.endpoint_id ra rb) := by
  rw [diff_scans_moved_eq, List.mem_filterMap]
  constructor
  · rintro ⟨i, hi, hf⟩
    rw [moved_fun_eq_some_iff] at hf
    obtain ⟨ra, rb, hra, hrb, hcond, rfl⟩ := hf
    have hra' := (snapFind_eq_some_iff _ (get_scan_endpoints_eids_nodup st f) i ra).mp hra
    have hrb' := (snapFind_eq_some_iff _ (get_scan_endpoints_eids_nodup st t) i rb).mp hrb
    have hid : (movedOf i ra rb).endpoint_id = i := rfl
    exact ⟨ra, rb, hra'.1, hrb'.1, hid ▸ hra'.2, hid ▸ hrb'.2, hcond, by rw [hid]⟩
  · rintro ⟨ra, rb, hra, hrb, hida, hidb, hcond, hm⟩
    refine ⟨m.endpoint_id, ?_, ?_⟩
    · rw [mem_common_ids_iff]
      exact ⟨List.mem_map.mpr ⟨ra, hra, hida⟩, List.mem_map.mpr ⟨rb, hrb, hidb⟩⟩
    · rw [moved_fun_eq_some_iff]
      refine ⟨ra, rb, ?_, ?_, hcond, hm⟩
      · exact (snapFind_eq_some_iff _ (get_scan_endpoints_eids_nodup st f) _ ra).mpr
          ⟨hra, hida⟩
      · exact (snapFind_eq_some_iff _ (get_scan_endpoints_eids_nodup st t) _ rb).mpr
          ⟨hrb, hidb⟩

theorem mem_diff_handler_changed_iff (st : Store) (f t : Int)
    (h : HandlerChangedEntry) :
    h ∈ (diff_scans st f t).handler_changed ↔
      (∃ ra rb, ra ∈ get_scan_endpoints st f ∧ rb ∈ get_scan_endpoints st t ∧
        ra.endpoint_id = h.endpoint_id ∧ rb.endpoint_id = h.endpoint_id ∧
        ra.rel_path = rb.rel_path ∧ ra.handler_name ≠ rb.handler_name ∧
        h = handlerChangedOf h.endpoint_id ra rb) := by
  rw [diff_scans_handler_changed_eq, List.mem_filterMap]
  constructor
  · rintro ⟨i, hi, hf⟩
    rw [handler_fun_eq_some_iff] at hf
    obtain ⟨ra, rb, hra, hrb, hc1, hc2, rfl⟩ := hf
    have hra' := (snapFind_eq_some_iff _ (get_scan_endpoints_eids_nodup st f) i ra).mp hra
    have hrb' := (snapFind_eq_some_iff _ (get_scan_endpoints_eids_nodup st t) i rb).mp hrb
    have hid : (handlerChangedOf i ra rb).endpoint_id = i := rfl
    exact ⟨ra, rb, hra'.1, hrb'.1, hid ▸ hra'.2, hid ▸ hrb'.2, hc1, hc2, by rw [hid]⟩
  · rintro ⟨ra, rb, hra, hrb, hida, hidb, hc1, hc2, hm⟩
    refine ⟨h.endpoint_id, ?_, ?_⟩
    · rw [mem_common_ids_iff]
      exact ⟨List.mem_map.mpr ⟨ra, hra, hida⟩, List.mem_map.mpr ⟨rb, hrb, hidb⟩⟩
    · rw [handler_fun_eq_some_iff]
      refine ⟨ra, rb, ?_, ?_, hc1, hc2, hm⟩
      · exact (snapFind_eq_some_iff _ (get_scan_endpoints_eids_nodup st f) _ ra).mpr
          ⟨hra, hida⟩
      · exact (snapFind_eq_some_iff _ (get_scan_endpoints_eids_nodup st t) _ rb).mpr
          ⟨hrb, hidb⟩

theorem diff_moved_handler_exclusive (st : Store) (f t : Int) (e : String) :
    ¬((∃ m ∈ (diff_scans st f t).moved, m.endpoint_id = e) ∧
      (∃ h ∈ (diff_scans st f t).handler_changed, h.endpoint_id = e)) := by
  rintro ⟨⟨m, hm, hme⟩, ⟨h, hh, hhe⟩⟩
  obtain ⟨ra, rb, hra, hrb, hida, hidb, hcond, _⟩ :=
    (mem_diff_moved_iff st f t m).mp hm
  obtain ⟨ra', rb', hra', hrb', hida', hidb', hc1, _, _⟩ :=
    (mem_diff_handler_changed_iff st f t h).mp hh
  have hfa := (snapFind_eq_some_iff _ (get_scan_endpoints_eids_nodup st f) e ra).mpr
    ⟨hra, hme ▸ hida⟩
  have hfa' := (snapFind_eq_some_iff _ (get_scan_endpoints_eids_nodup st f) e ra').mpr
    ⟨hra', hhe ▸ hida'⟩
  have hfb := (snapFind_eq_some_iff _ (get_scan_endpoints_eids_nodup st t) e rb).mpr
    ⟨hrb, hme ▸ hidb⟩
  have hfb' := (snapFind_eq_some_iff _ (get_scan_endpoints_eids_nodup st t) e rb').mpr
    ⟨hrb', hhe ▸ hidb'⟩
  have ha : ra = ra' := Option.some.inj (hfa.symm.trans hfa')
  have hb : rb = rb' := Option.some.inj (hfb.symm.trans hfb')
  exact hcond (ha ▸ hb ▸ hc1)

/-- If every produced element's key is the id it was produced from, the keys
of a `filterMap` over an id list form a sublist of that id list. -/
theorem map_key_filterMap_sublist {β : Type} (key : β → String)
    (f : String → Option β) (hkey : ∀ i m, f i = some m → key m = i) :
    ∀ ids : List String, ((ids.filterMap f).map key).Sublist ids := by
  intro ids
  induction ids with
  | nil => simp
  | cons i ids ih =>
      rw [List.filterMap_cons]
      rcases hf : f i with _ | m
      · exact ih.cons i
      · rw [List.map_cons, hkey i m hf]
        exact ih.cons₂ i

theorem diff_added_eids_sorted (st : Store) (f t : Int) :
    List.Sorted strLe (eidsOf (diff_scans st f t).added) := by
  rw [diff_scans_added_eq]
  simp only [eidsOf]
  have hkey : ∀ i (m : SnapRow), snapFind (get_scan_endpoints st t) i = some m →
      m.endpoint_id = i := by
    intro i m hf
    rw [snapFind] at hf
    have hp := List.find?_some hf
    exact beq_iff_eq.mp hp
  exact List.Pairwise.sublist
    (map_key_filterMap_sublist (fun r : SnapRow => r.endpoint_id) _ hkey _)
    (sortStrings_sorted _)

theorem diff_removed_eids_sorted (st : Store) (f t : Int) :
    List.Sorted strLe (eidsOf (diff_scans st f t).removed) := by
  rw [diff_scans_removed_eq]
  simp only [eidsOf]
  have hkey : ∀ i (m : SnapRow), snapFind (get_scan_endpoints st f) i = some m →
      m.endpoint_id = i := by
    intro i m hf
    rw [snapFind] at hf
    have hp := List.find?_some hf
    exact beq_iff_eq.mp hp
  exact List.Pairwise.sublist
    (map_key_filterMap_sublist (fun r : SnapRow => r.endpoint_id) _ hkey _)
    (sortStrings_sorted _)

theorem diff_moved_eids_sorted (st : Store) (f t : Int) :
    List.Sorted strLe ((diff_scans st f t).moved.map (fun m => m.endpoint_id)) := by
  rw [diff_scans_moved_eq]
  have hkey : ∀ i (m : MovedEntry), (match snapFind (get_scan_endpoints st f) i,
        snapFind (get_scan_endpoints st t) i with
      | some ra, some rb =>
          if ra.rel_path ≠ rb.rel_path then some (movedOf i ra rb) else none
      | _, _ => none) = some m → m.endpoint_id = i := by
    intro i m hf
    obtain ⟨ra, rb, _, _, _, rfl⟩ := (moved_fun_eq_some_iff _ _ i m).mp hf
    rfl
  exact List.Pairwise.sublist
    (map_key_filterMap_sublist (fun m : MovedEntry => m.endpoint_id) _ hkey _)
    (sortStrings_sorted _)

theorem diff_handler_changed_eids_sorted (st : Store) (f t : Int) :
    List.Sorted strLe
      ((diff_scans st f t).handler_changed.map (fun h => h.endpoint_id)) := by
  rw [diff_scans_handler_changed_eq]
  have hkey : ∀ i (m : HandlerChangedEntry),
      (match snapFind (get_scan_endpoints st f) i,
        snapFind (get_scan_endpoints st t) i with
      | some ra, some rb =>
          if ra.rel_path = rb.rel_path ∧ ra.handler_name ≠ rb.handler_name then
            some (handlerChangedOf i ra rb)
          else none
      | _, _ => none) = some m → m.endpoint_id = i := by
    intro i m hf
    obtain ⟨ra, rb, _, _, _, _, rfl⟩ := (handler_fun_eq_some_iff _ _ i m).mp hf
    rfl
  exact List.Pairwise.sublist
    (map_key_filterMap_sublist (fun h : HandlerChangedEntry => h.endpoint_id) _ hkey _)
    (sortStrings_sorted _)

/-! ### Claim theorems -/

theorem replace_routes_filter_eq (st : Store) (p : String) (R : List RouteDecl)
    (tag : String) (ts : Int) :
    ((replace_routes_for_file st p R tag ts).1).routes.filter
        (fun r => r.rel_path == p)
      = storedRoutesFor p R tag ts := by
  have hrows : ∀ r ∈ R.map (routeRowOf p tag ts),
      (fun r : RouteRow => r.rel_path == p) r = true := by
    intro r hr
    rcases List.mem_map.mp hr with ⟨d, _, rfl⟩
    simp [routeRowOf]
  have h1 := foldl_insertOrReplaceBy_filter (fun r : RouteRow => r.id)
    (fun r : RouteRow => r.rel_path == p) (R.map (routeRowOf p tag ts)) hrows
    (st.routes.filter (fun r => r.rel_path != p))
  have h2 : (st.routes.filter (fun r => r.rel_path != p)).filter
      (fun r : RouteRow => r.rel_path == p) = [] := by
    rw [List.filter_filter]
    refine List.filter_eq_nil_iff.mpr ?_
    intro a _
    simp
  rw [h2] at h1
  exact h1

/-- C2: `replace_routes_for_file` is a true replace: after calling it with
`r1` and then with `r2` for the same path, the route table restricted to that
path holds exactly the rows derived from `r2` (its `to_insert` list loaded
under the `id` primary key), identical to what a single call with `r2` leaves
— never a union with rows from `r1`. -/
theorem replaceForFile_true_replace (st : Store) (rel_path tag1 tag2 : String)
    (r1 r2 : List RouteDecl) (ts1 ts2 : Int) :
    ((replace_routes_for_file
        ((replace_routes_for_file st rel_path r1 tag1 ts1).1)
        rel_path r2 tag2 ts2).1.routes.filter (fun r => r.rel_path == rel_path)
      = storedRoutesFor rel_path r2 tag2 ts2) ∧
    ((replace_routes_for_file st rel_path r2 tag2 ts2).1.routes.filter
        (fun r => r.rel_path == rel_path)
      = storedRoutesFor rel_path r2 tag2 ts2) :=
  ⟨replace_routes_filter_eq _ _ _ _ _, replace_routes_filter_eq _ _ _ _ _⟩

theorem mem_list_routes_subset (st : Store) (m hp pc fc hc : Option String)
    (lim : Nat) : ∀ r ∈ list_routes st m hp pc fc hc lim, r ∈ st.routes := by
  intro r hr
  simp only [list_routes] at hr
  have h2 := List.take_subset _ _ hr
  have h3 := (List.perm_insertionSort routeLe _).mem_iff.mp h2
  exact (List.mem_filter.mp h3).1

/-- C6: `remove_file(path)` deletes the file row and every route row owned by
the path in the same transaction: afterwards the route table holds no row for
the path, the files table holds no row for the path, and no route query of
any kind returns a row owned by the path. -/
theorem remove_file_cascades (st : Store) (p : String) :
    ((remove_file st p).routes.filter (fun r => r.rel_path == p) = []) ∧
    ((remove_file st p).files.filter (fun f => f.rel_path == p) = []) ∧
    (∀ m hp pc fc hc lim, ∀ r ∈ list_routes (remove_file st p) m hp pc fc hc lim,
      r.rel_path ≠ p) := by
  refine ⟨?_, ?_, ?_⟩
  · rw [show (remove_file st p).routes
        = st.routes.filter (fun r => r.rel_path != p) from rfl]
    rw [List.filter_filter]
    refine List.filter_eq_nil_iff.mpr ?_
    intro a _
    simp
  · rw [show (remove_file st p).files
        = st.files.filter (fun f => f.rel_path != p) from rfl]
    rw [List.filter_filter]
    refine List.filter_eq_nil_iff.mpr ?_
    intro a _
    simp
  · intro m hp pc fc hc lim r hr
    have h1 := mem_list_routes_subset _ m hp pc fc hc lim r hr
    have h2 := (List.mem_filter.mp h1).2
    simpa using h2

/-- Closed witness for C6 at a concrete store and path. -/
theorem remove_file_cascades_witness :
    (remove_file dupStore "f.py").routes.filter
      (fun r => r.rel_path == "f.py") = [] :=
  (remove_file_cascades dupStore "f.py").1

theorem fingerprint_hash_take (c : List Nat) (m : Int) (mb : Nat) :
    (compute_file_fingerprint c m mb).1 = _sha256_bytes (c.take mb) := by
  show _sha256_bytes (if c.length > mb then c.take mb else c) = _
  by_cases h : c.length > mb
  · rw [if_pos h]
  · rw [if_neg h, List.take_of_length_le (Nat.le_of_not_lt h)]

/-- C9: the fingerprint hash is computed over exactly the first
`min(size, max_bytes)` bytes of the file: it equals the digest of
`content.take max_bytes`, that prefix has length `min size max_bytes`, and
two files agreeing on that prefix get the same hash whatever their tails,
sizes or mtimes are. -/
theorem fingerprint_prefix_only (content : List Nat) (mtime_ns : Int)
    (max_bytes : Nat) :
    ((compute_file_fingerprint content mtime_ns max_bytes).1
      = _sha256_bytes (content.take max_bytes)) ∧
    ((content.take max_bytes).length = min content.length max_bytes) ∧
    (∀ c2 mt2, content.take max_bytes = c2.take max_bytes →
      (compute_file_fingerprint content mtime_ns max_bytes).1
        = (compute_file_fingerprint c2 mt2 max_bytes).1) := by
  refine ⟨fingerprint_hash_take _ _ _, ?_, ?_⟩
  · rw [List.length_take]
    exact Nat.min_comm _ _
  · intro c2 mt2 hpre
    rw [fingerprint_hash_take, fingerprint_hash_take, hpre]

/-- Closed witness for C9: two files that agree on their first 2 bytes (the
ceiling) but differ beyond it report the same hash. -/
theorem fingerprint_prefix_only_witness :
    (compute_file_fingerprint [1, 2, 3] 0 2).1
      = (compute_file_fingerprint [1, 2, 9, 9] 5 2).1 :=
  (fingerprint_prefix_only [1, 2, 3] 0 2).2.2 [1, 2, 9, 9] 5 (by decide)

/-- C10: `replace_routes_for_file` returns `len(to_insert)` — the length of
the input list — not the number of rows stored: two input declarations with
identical (method, path, handler, decorator line) share a route id, so the
table keeps one row while the count reports two.  The stored rows always
carry pairwise distinct ids. -/
theorem replaceForFile_count_is_input_length (st : Store) (p tag : String)
    (R : List RouteDecl) (ts : Int) :
    ((replace_routes_for_file st p R tag ts).2 = R.length) ∧
    (((storedRoutesFor p R tag ts).map (fun r => r.id)).Nodup) ∧
    ((replace_routes_for_file emptyStore "f.py" [declA1, declA1] "ast" 0).2 = 2) ∧
    ((replace_routes_for_file emptyStore "f.py"
        [declA1, declA1] "ast" 0).1.routes.length = 1) := by
  refine ⟨?_, ?_, by decide, by decide⟩
  · show (R.map (routeRowOf p tag ts)).length = R.length
    exact List.length_map _ _
  · exact foldl_insertOrReplaceBy_keys_nodup (fun r : RouteRow => r.id)
      (R.map (routeRowOf p tag ts)) [] (by simp)

/-- C7: a stored schema version other than the recognized values ("1.1",
"1.2"; an absent version takes the detection/creation paths instead) makes
`_init_db_and_migrate` fail with the `RuntimeError` condition instead of
guessing a migration. -/
theorem init_refuses_unknown_schema (relTo : String → Option String)
    (db : RawDB) (v : String)
    (hv : _get_meta db.meta "schema_version" = some v)
    (h1 : v ≠ "1.1") (h2 : v ≠ "1.2") :
    _init_db_and_migrate relTo db
      = Except.error ("Unsupported schema_version in DB: " ++ v) := by
  simp [_init_db_and_migrate, hv, h1, h2]

/-- Closed witness for C7: opening a store whose metadata says "0.9" fails. -/
theorem init_refuses_unknown_schema_witness :
    _init_db_and_migrate (fun _ => none) rawUnknownVersion
      = Except.error "Unsupported schema_version in DB: 0.9" :=
  init_refuses_unknown_schema (fun _ => none) rawUnknownVersion "0.9" rfl
    (by decide) (by decide)

theorem migrate_files_eq_map (relTo : String → Option String)
    (rows : List LegacyFileRow)
    (hnd : (rows.map (fun r => (migFileRow relTo r).rel_path)).Nodup) :
    _migrate_1_0_to_1_1_files relTo rows = rows.map (migFileRow relTo) := by
  have h := foldl_insertOrReplaceBy_of_nodup (fun f : FileRow => f.rel_path)
    (rows.map (migFileRow relTo)) []
    (by simpa [List.map_map, Function.comp] using hnd)
  rw [List.foldl_map] at h
  show rows.foldl (fun acc row => insertOrReplaceFile acc (migFileRow relTo row)) []
    = rows.map (migFileRow relTo)
  simpa using h

theorem migrate_routes_eq_map (relTo : String → Option String)
    (rows : List LegacyRouteRow)
    (hnd : (rows.map (fun r => (migRouteRow relTo r).id)).Nodup) :
    _migrate_1_0_to_1_1_routes relTo rows = rows.map (migRouteRow relTo) := by
  have h := foldl_insertOrReplaceBy_of_nodup (fun r : RouteRow => r.id)
    (rows.map (migRouteRow relTo)) []
    (by simpa [List.map_map, Function.comp] using hnd)
  rw [List.foldl_map] at h
  show rows.foldl (fun acc row => insertOrReplaceRoute acc (migRouteRow relTo row)) []
    = rows.map (migRouteRow relTo)
  simpa using h

/-- C8: the 1.0→1.1 migration keeps every file and route row whose path
cannot be relativized (the oracle raises, i.e. returns `none`), retaining the
original string verbatim as `rel_path`, and — provided the rewritten keys are
pairwise distinct, as the legacy primary keys guarantee in the intended
scenarios — the row counts are unchanged.  In particular a legacy store with
one out-of-root file row migrates successfully through the full
`_init_db_and_migrate` entry point with that row intact. -/
theorem migration_preserves_unresolvable_paths (relTo : String → Option String)
    (fileRows : List LegacyFileRow) (routeRows : List LegacyRouteRow)
    (hnf : (fileRows.map (fun r => (migFileRow relTo r).rel_path)).Nodup)
    (hnr : (routeRows.map (fun r => r.id)).Nodup) :
    ((_migrate_1_0_to_1_1_files relTo fileRows).length = fileRows.length) ∧
    (∀ row ∈ fileRows, relTo row.path = none →
      migFileRow relTo row ∈ _migrate_1_0_to_1_1_files relTo fileRows ∧
      (migFileRow relTo row).rel_path = row.path) ∧
    ((_migrate_1_0_to_1_1_routes relTo routeRows).length = routeRows.length) ∧
    (∀ row ∈ routeRows, relTo row.file_path = none →
      migRouteRow relTo row ∈ _migrate_1_0_to_1_1_routes relTo routeRows ∧
      (migRouteRow relTo row).rel_path = row.file_path) ∧
    (_init_db_and_migrate (fun _ => none) rawLegacyOutOfRoot
      = Except.ok
          { schema_version := "1.2"
            files := [{ rel_path := "/outside/app.py"
                        sha256 := "s"
                        mtime_ns := 1
                        size_bytes := 2
                        last_scanned_at := 3 }]
            routes := [] }) := by
  have hnr' : (routeRows.map (fun r => (migRouteRow relTo r).id)).Nodup := hnr
  refine ⟨?_, ?_, ?_, ?_, rfl⟩
  · rw [migrate_files_eq_map relTo fileRows hnf]
    exact List.length_map _ _
  · intro row hrow hfail
    constructor
    · rw [migrate_files_eq_map relTo fileRows hnf]
      exact List.mem_map.mpr ⟨row, hrow, rfl⟩
    · show migratePath relTo row.path = row.path
      rw [migratePath, hfail]
  · rw [migrate_routes_eq_map relTo routeRows hnr']
    exact List.length_map _ _
  · intro row hrow hfail
    constructor
    · rw [migrate_routes_eq_map relTo routeRows hnr']
      exact List.mem_map.mpr ⟨row, hrow, rfl⟩
    · show migratePath relTo row.file_path = row.file_path
      rw [migratePath, hfail]

/-- Closed witness for C8: migrating the one-row out-of-root legacy store
keeps the file count at 1 and the original path verbatim. -/
theorem migration_preserves_unresolvable_paths_witness :
    (_migrate_1_0_to_1_1_files (fun _ => none) [outOfRootFileRow]).length = 1 ∧
    (migFileRow (fun _ => none) outOfRootFileRow).rel_path = "/outside/app.py" := by
  have h := migration_preserves_unresolvable_paths (fun _ => none)
    [outOfRootFileRow] [] (by decide) (by decide)
  exact ⟨h.1, (h.2.1 outOfRootFileRow (by decide) rfl).2⟩

/-- C3: endpoint identity is a pure function of (method, URL path); the
snapshot keeps at most one row per identity, the survivor being the first
matching row of the `(method, http_path, rel_path, decl_line)`-ordered route
listing; concretely, of two same-file routes for `GET /a` with different
handlers the one with the lowest decorator line survives. -/
theorem endpoint_identity_collapse (st : Store) (scan_id : Int) :
    ((eidsOf (snapshotInserts st scan_id)).Nodup) ∧
    (∀ r1 r2 : RouteRow, r1.method = r2.method → r1.http_path = r2.http_path →
      eidOfRoute r1 = eidOfRoute r2) ∧
    (∀ s ∈ snapshotInserts st scan_id,
      ∃ r, (list_routes st none none none none none 1000000).find?
          (fun r => eidOfRoute r == s.endpoint_id) = some r ∧
        s = snapRowOf scan_id r) ∧
    ((snapshotInserts dupStore 1).map
        (fun s => (s.handler_name, s.decl_line)) = [("h1", 3)]) := by
  refine ⟨(snapshotLoop_eids scan_id _ []).1, ?_, ?_, by decide⟩
  · intro r1 r2 hm hp
    rw [eidOfRoute, eidOfRoute, hm, hp]
  · intro s hs
    exact snapshotLoop_find scan_id _ [] s hs

/-- Closed witness for C3 at the duplicate-route store. -/
theorem endpoint_identity_collapse_witness :
    (eidsOf (snapshotInserts dupStore 1)).Nodup ∧
    eidOfRoute (routeRowOf "f.py" "ast" 0 declA1)
      = eidOfRoute (routeRowOf "f.py" "ast" 0 declA2) := by
  have h := endpoint_identity_collapse dupStore 1
  exact ⟨h.1, h.2.1 _ _ (by decide) (by decide)⟩

/-- C4 (amended): provided the route table holds at most 1 000 000 rows (the
`LIMIT` used by the snapshot read), `snapshot_current_endpoints` writes
exactly one snapshot row, tagged with the scan id, per distinct endpoint
identity occurring in the route table, and returns the number of distinct
identities. -/
theorem snapshot_counts_distinct_identities (st : Store) (scan_id : Int)
    (hsize : st.routes.length ≤ 1000000) :
    ((eidsOf (snapshotInserts st scan_id)).Nodup) ∧
    (∀ e, e ∈ eidsOf (snapshotInserts st scan_id) ↔
      e ∈ st.routes.map eidOfRoute) ∧
    (∀ s ∈ snapshotInserts st scan_id, s.scan_id = scan_id) ∧
    ((snapshot_current_endpoints st scan_id).2
      = (st.routes.map eidOfRoute).dedup.length) := by
  have hfull : list_routes st none none none none none 1000000
      = st.routes.insertionSort routeLe := by
    show ((st.routes.filter (fun _ => true)).insertionSort routeLe).take 1000000
      = st.routes.insertionSort routeLe
    rw [List.filter_true]
    apply List.take_of_length_le
    rw [(List.perm_insertionSort routeLe st.routes).length_eq]
    exact hsize
  have hmem : ∀ e, e ∈ eidsOf (snapshotInserts st scan_id) ↔
      e ∈ st.routes.map eidOfRoute := by
    intro e
    rw [show snapshotInserts st scan_id
        = snapshotLoop scan_id (list_routes st none none none none none 1000000) []
      from rfl]
    rw [snapshotLoop_mem_eids, hfull]
    constructor
    · rintro ⟨he, _⟩
      exact ((List.perm_insertionSort routeLe st.routes).map eidOfRoute).mem_iff.mp he
    · intro he
      exact ⟨((List.perm_insertionSort routeLe st.routes).map eidOfRoute).mem_iff.mpr
        he, List.not_mem_nil e⟩
  have hnodup : (eidsOf (snapshotInserts st scan_id)).Nodup :=
    (snapshotLoop_eids scan_id _ []).1
  refine ⟨hnodup, hmem, fun s hs => snapshotLoop_scan_id scan_id _ [] s hs, ?_⟩
  have hperm : (eidsOf (snapshotInserts st scan_id)).Perm
      (st.routes.map eidOfRoute).dedup := by
    rw [List.perm_ext_iff_of_nodup hnodup (List.nodup_dedup _)]
    intro e
    rw [List.mem_dedup]
    exact hmem e
  calc (snapshot_current_endpoints st scan_id).2
      = (snapshotInserts st scan_id).length := rfl
    _ = (eidsOf (snapshotInserts st scan_id)).length := (List.length_map _ _).symm
    _ = _ := hperm.length_eq

/-- Closed witness for C4's amended theorem at the duplicate-route store. -/
theorem snapshot_counts_distinct_identities_witness :
    (snapshot_current_endpoints dupStore 1).2
      = (dupStore.routes.map eidOfRoute).dedup.length :=
  (snapshot_counts_distinct_identities dupStore 1 (by decide)).2.2.2

theorem list_routes_length_le (st : Store) (m hp pc fc hc : Option String)
    (lim : Nat) : (list_routes st m hp pc fc hc lim).length ≤ lim := by
  simp only [list_routes]
  rw [List.length_take]
  exact min_le_left _ _

theorem snapshot_count_eq (st : Store) (sid : Int) :
    (snapshot_current_endpoints st sid).2 = (snapshotInserts st sid).length := rfl

theorem snapshotInserts_eq (st : Store) (sid : Int) :
    snapshotInserts st sid
      = snapshotLoop sid (list_routes st none none none none none 1000000) [] := rfl

/-- C4 counterexample: on a store whose route table holds 1 000 001 routes
with pairwise distinct endpoint identities, `snapshot_current_endpoints`
returns at most 1 000 000 — not the number of distinct identities in the
table — because the snapshot read is truncated by `LIMIT 1_000_000`. -/
theorem snapshot_limit_counterexample :
    (snapshot_current_endpoints bigStore 1).2
      ≠ (bigStore.routes.map eidOfRoute).dedup.length := by
  have hle : (snapshot_current_endpoints bigStore 1).2 ≤ 1000000 := by
    rw [snapshot_count_eq, snapshotInserts_eq]
    calc (snapshotLoop 1 (list_routes bigStore none none none none none 1000000)
            []).length
        ≤ (list_routes bigStore none none none none none 1000000).length :=
          snapshotLoop_length_le 1 _ []
      _ ≤ 1000000 := list_routes_length_le bigStore none none none none none 1000000
  have hroutes : bigStore.routes = (List.range 1000001).map bigRoute := by
    rw [bigStore]
  have hlen1 : ∀ i, (eidOfRoute (bigRoute i)).length = i + 4 := by
    intro i
    show (pyUpper (pyUpper "GET") ++ "|" ++ String.mk (List.replicate i 'a')).length
      = i + 4
    rw [String.length_append, String.length_append]
    rw [show (pyUpper (pyUpper "GET")).length = 3 from rfl]
    rw [show ("|" : String).length = 1 from rfl]
    rw [show (String.mk (List.replicate i 'a')).length = (List.replicate i 'a').length
      from rfl]
    rw [List.length_replicate]
    omega
  have hinj : Function.Injective (fun i => eidOfRoute (bigRoute i)) := by
    intro i j hij
    have h := congrArg String.length hij
    rw [hlen1 i, hlen1 j] at h
    omega
  have hnd : (bigStore.routes.map eidOfRoute).Nodup := by
    rw [hroutes, List.map_map]
    exact (List.nodup_range 1000001).map hinj
  have hlen : (bigStore.routes.map eidOfRoute).dedup.length = 1000001 := by
    rw [List.dedup_eq_self.mpr hnd, hroutes]
    rw [List.length_map, List.length_map, List.length_range]
  intro heq
  rw [hlen] at heq
  omega

/-- C1: `diff_scans` classifies endpoint identities exactly: `added` holds
precisely the to-snapshots whose identity is absent from the from-scan,
`removed` the converse; a common identity yields a `moved` entry (reporting
both files and both handlers) exactly when the owning file differs —
regardless of the handler — and a `handler_changed` entry exactly when the
file is unchanged and the handler differs; no identity gets both; all four
lists are sorted by endpoint identity. -/
theorem diff_scans_classification (st : Store) (from_scan_id to_scan_id : Int) :
    (∀ r : SnapRow, r ∈ (diff_scans st from_scan_id to_scan_id).added ↔
      (r ∈ get_scan_endpoints st to_scan_id ∧
        r.endpoint_id ∉ eidsOf (get_scan_endpoints st from_scan_id))) ∧
    (∀ r : SnapRow, r ∈ (diff_scans st from_scan_id to_scan_id).removed ↔
      (r ∈ get_scan_endpoints st from_scan_id ∧
        r.endpoint_id ∉ eidsOf (get_scan_endpoints st to_scan_id))) ∧
    (∀ m : MovedEntry, m ∈ (diff_scans st from_scan_id to_scan_id).moved ↔
      (∃ ra rb, ra ∈ get_scan_endpoints st from_scan_id ∧
        rb ∈ get_scan_endpoints st to_scan_id ∧
        ra.endpoint_id = m.endpoint_id ∧ rb.endpoint_id = m.endpoint_id ∧
        ra.rel_path ≠ rb.rel_path ∧ m = movedOf m.endpoint_id ra rb)) ∧
    (∀ h : HandlerChangedEntry,
      h ∈ (diff_scans st from_scan_id to_scan_id).handler_changed ↔
      (∃ ra rb, ra ∈ get_scan_endpoints st from_scan_id ∧
        rb ∈ get_scan_endpoints st to_scan_id ∧
        ra.endpoint_id = h.endpoint_id ∧ rb.endpoint_id = h.endpoint_id ∧
        ra.rel_path = rb.rel_path ∧ ra.handler_name ≠ rb.handler_name ∧
        h = handlerChangedOf h.endpoint_id ra rb)) ∧
    (∀ e : String,
      ¬((∃ m ∈ (diff_scans st from_scan_id to_scan_id).moved, m.endpoint_id = e) ∧
        (∃ h ∈ (diff_scans st from_scan_id to_scan_id).handler_changed,
          h.endpoint_id = e))) ∧
    List.Sorted strLe (eidsOf (diff_scans st from_scan_id to_scan_id).added) ∧
    List.Sorted strLe (eidsOf (diff_scans st from_scan_id to_scan_id).removed) ∧
    List.Sorted strLe
      ((diff_scans st from_scan_id to_scan_id).moved.map (fun m => m.endpoint_id)) ∧
    List.Sorted strLe
      ((diff_scans st from_scan_id to_scan_id).handler_changed.map
        (fun h => h.endpoint_id)) :=
  ⟨mem_diff_added_iff st from_scan_id to_scan_id,
   mem_diff_removed_iff st from_scan_id to_scan_id,
   mem_diff_moved_iff st from_scan_id to_scan_id,
   mem_diff_handler_changed_iff st from_scan_id to_scan_id,
   diff_moved_handler_exclusive st from_scan_id to_scan_id,
   diff_added_eids_sorted st from_scan_id to_scan_id,
   diff_removed_eids_sorted st from_scan_id to_scan_id,
   diff_moved_eids_sorted st from_scan_id to_scan_id,
   diff_handler_changed_eids_sorted st from_scan_id to_scan_id⟩

/-- Closed witness for C1: in the moved scenario the endpoint's `moved`
entry is produced (same identity in both scans, file changed). -/
theorem diff_scans_classification_witness :
    movedOf "GET|/a" snapA1 snapA2 ∈ (diff_scans movedScenarioStore 1 2).moved := by
  refine ((diff_scans_classification movedScenarioStore 1 2).2.2.1 _).mpr ?_
  exact ⟨snapA1, snapA2, by decide, by decide, rfl, rfl, by decide, rfl⟩

/-- C5: reading or diffing against a scan id that does not exist in the
store never fails: its snapshot map is empty, and the diff against it
reports every endpoint of the other scan as added (resp. removed) with the
remaining three lists empty.  (`hwf` is the foreign-key invariant of the
`scan_endpoints` table, enforced by SQLite's `PRAGMA foreign_keys=ON`.) -/
theorem diff_absent_scan_is_empty (st : Store) (sid other : Int)
    (hwf : ∀ r ∈ st.scan_endpoints, r.scan_id ∈ st.scans.map (fun s => s.scan_id))
    (habs : sid ∉ st.scans.map (fun s => s.scan_id)) :
    (get_scan_endpoints st sid = []) ∧
    (∀ r, r ∈ (diff_scans st sid other).added ↔ r ∈ get_scan_endpoints st other) ∧
    ((diff_scans st sid other).removed = []) ∧
    ((diff_scans st sid other).moved = []) ∧
    ((diff_scans st sid other).handler_changed = []) ∧
    (∀ r, r ∈ (diff_scans st other sid).removed ↔ r ∈ get_scan_endpoints st other) ∧
    ((diff_scans st other sid).added = []) ∧
    ((diff_scans st other sid).moved = []) ∧
    ((diff_scans st other sid).handler_changed = []) := by
  have hall : ∀ r ∈ st.scan_endpoints, ¬((r.scan_id == sid) = true) := by
    intro r hr heq
    have h2 : r.scan_id = sid := by simpa using heq
    exact habs (h2 ▸ hwf r hr)
  have hempty : get_scan_endpoints st sid = [] := by
    rw [get_scan_endpoints, List.filter_eq_nil_iff.mpr hall]
    rfl
  refine ⟨hempty, ?_, ?_, ?_, ?_, ?_, ?_, ?_, ?_⟩
  · intro r
    rw [mem_diff_added_iff, hempty]
    simp [eidsOf]
  · rw [diff_scans_removed_eq, hempty]
    simp [eidsOf, sortStrings]
  · rw [diff_scans_moved_eq, hempty]
    simp [eidsOf, sortStrings]
  · rw [diff_scans_handler_changed_eq, hempty]
    simp [eidsOf, sortStrings]
  · intro r
    rw [mem_diff_removed_iff, hempty]
    simp [eidsOf]
  · rw [diff_scans_added_eq, hempty]
    simp [eidsOf, sortStrings]
  · rw [diff_scans_moved_eq, hempty]
    simp [eidsOf, sortStrings]
  · rw [diff_scans_handler_changed_eq, hempty]
    simp [eidsOf, sortStrings]

/-- Closed witness for C5 at a store with one scan (id 1), diffed against the
absent id 99. -/
theorem diff_absent_scan_is_empty_witness :
    get_scan_endpoints oneScanStore 99 = [] ∧
    (diff_scans oneScanStore 99 1).removed = [] ∧
    (diff_scans oneScanStore 99 1).moved = [] := by
  have h := diff_absent_scan_is_empty oneScanStore 99 1 (by decide) (by decide)
  exact ⟨h.1, h.2.2.1, h.2.2.2.1⟩
